import Mathlib

/-!
Verification of the market-data relay (binance_listener.cpp and
data_receiver_server.cpp) against its natural-language specification.

Shallow embedding conventions:
- C++ `double` prices are modelled as exact rationals (ℚ); the C++
  comparison logic uses only subtraction, absolute value, `==` and `>=`,
  which the rational model mirrors faithfully for the decimal values the
  feed delivers.
- `std::stod` is abstracted: handlers receive both the textual price field
  and the rational value it denotes.
- Threads are modelled as explicit interleavings (event traces) acting on
  explicit state.
-/

/-- Configured threshold, `MINIMUM_TICK_SIZE = 0.2` in binance_listener.cpp. -/
def MINIMUM_TICK_SIZE : ℚ := 1/5

/-- Configured reconnect delay, `RECONNECT_INTERVAL_MS = 3000` in binance_listener.cpp. -/
def RECONNECT_INTERVAL_MS : Nat := 3000

/-- Core of the significance filter, embedded from `on_binance_message`
(binance_listener.cpp lines 169-183), acting on the numeric price only.
The state is `g_last_sent_trade_price`, initialised to `0.0`; the code
tests `last_price == 0.0` as its cold-start condition, stores the current
price then, and otherwise emits exactly when
`abs(current - last) >= MINIMUM_TICK_SIZE`, updating the state on emission.
Returns (emitted event, state after the call). -/
def observe (last_price current : ℚ) : Option ℚ × ℚ :=
  if last_price = 0 then (none, current)
  else if MINIMUM_TICK_SIZE ≤ |current - last_price| then (some current, current)
  else (none, last_price)

/-- Run the filter over a sequence of observed prices from a given state,
collecting the per-observation emissions and the final state. -/
def runFilter (last_price : ℚ) : List ℚ → List (Option ℚ) × ℚ
  | [] => ([], last_price)
  | p :: ps =>
      let r := observe last_price p
      let rest := runFilter r.2 ps
      (r.1 :: rest.1, rest.2)

/-- Statement of the per-observation emission law claimed by the spec: at each
observation, an event is emitted if and only if the absolute move from the
state before that observation reaches the threshold. -/
def EmitIff (last_price : ℚ) : List ℚ → Prop
  | [] => True
  | p :: ps =>
      ((observe last_price p).1.isSome ↔ MINIMUM_TICK_SIZE ≤ |p - last_price|) ∧
      EmitIff (observe last_price p).2 ps

instance EmitIff.decidable : ∀ (l : ℚ) (ps : List ℚ), Decidable (EmitIff l ps)
  | _, [] => .isTrue trivial
  | l, p :: ps =>
      haveI : Decidable (EmitIff (observe l p).2 ps) := EmitIff.decidable _ ps
      inferInstanceAs (Decidable (_ ∧ _))

/-- Payload construction from `on_binance_message` (binance_listener.cpp line
180): the C++ is the concatenation
`"\x7b\"type\":\"S\",\"p\":" + std::string(price_sv) + "\x7d"` — note the
price field value is inserted bare, with no surrounding quote characters. -/
def payload (price_sv : String) : String :=
  "\x7b\"type\":\"S\",\"p\":" ++ price_sv ++ "\x7d"

/-- State touched by the upstream message handler: the atomic
`g_last_sent_trade_price` (initially `0.0`) and the contents of
`message_queue` in push order. -/
structure ListenerState where
  last_price : ℚ
  queue : List String
  deriving Repr, DecidableEq

/-- Initial state of the listener process: `g_last_sent_trade_price(0.0)`
and an empty queue. -/
def ListenerState.init : ListenerState := { last_price := 0, queue := [] }

/-- Embedding of the full `on_binance_message` handler (binance_listener.cpp
lines 161-189) on an already-parsed message: `e` is the event-type field,
`price_sv` the textual price field, `price_val` the rational value
`std::stod` extracts from it. Non-trade messages are ignored; on the
cold-start branch only the price cell changes; on a significant move the
payload built from the raw price text is pushed and the price cell updated. -/
def on_binance_message (st : ListenerState) (e price_sv : String) (price_val : ℚ) :
    ListenerState :=
  if e = "trade" then
    if st.last_price = 0 then { st with last_price := price_val }
    else if MINIMUM_TICK_SIZE ≤ |price_val - st.last_price| then
      { last_price := price_val, queue := st.queue ++ [payload price_sv] }
    else st
  else st

example : observe 0 (100 : ℚ) = (none, 100) := by simp [observe]
example : runFilter 0 [100, 100 + 1/10, 100 + 3/10] =
    ([none, none, some (100 + 3/10)], 100 + 3/10) := by
  norm_num [runFilter, observe, MINIMUM_TICK_SIZE, abs]

lemma observe_isSome_iff (l p : ℚ) (hl : l ≠ 0) :
    (observe l p).1.isSome ↔ MINIMUM_TICK_SIZE ≤ |p - l| := by
  simp only [observe, if_neg hl]
  split <;> simp_all

lemma observe_snd_ne_zero (l p : ℚ) (hl : l ≠ 0) (hp : p ≠ 0) :
    (observe l p).2 ≠ 0 := by
  simp only [observe, if_neg hl]
  split <;> simp_all

lemma observe_none_of_eq (l p : ℚ) (hl : l ≠ 0) (h : (observe l p).1 = none) :
    (observe l p).2 = l := by
  simp only [observe, if_neg hl] at h ⊢
  split <;> simp_all

lemma emitIff_of_ne_zero : ∀ (ps : List ℚ) (l : ℚ), l ≠ 0 → (∀ p ∈ ps, p ≠ 0) →
    EmitIff l ps
  | [], _, _, _ => trivial
  | p :: ps, l, hl, h =>
      ⟨observe_isSome_iff l p hl,
       emitIff_of_ne_zero ps _ (observe_snd_ne_zero l p hl (h p (by simp)))
         (fun q hq => h q (by simp [hq]))⟩

lemma runFilter_state_eq : ∀ (ps : List ℚ) (l : ℚ), l ≠ 0 → (∀ p ∈ ps, p ≠ 0) →
    (runFilter l ps).2 = ((runFilter l ps).1.filterMap id).getLastD l
  | [], _, _, _ => by simp [runFilter]
  | p :: ps, l, hl, h => by
      have hp : p ≠ 0 := h p (by simp)
      have hrest : ∀ q ∈ ps, q ≠ 0 := fun q hq => h q (by simp [hq])
      by_cases hc : MINIMUM_TICK_SIZE ≤ |p - l|
      · have hob : observe l p = (some p, p) := by simp [observe, hl, hc]
        simp only [runFilter, hob, List.filterMap_cons, id]
        rw [List.getLastD_cons]
        exact runFilter_state_eq ps p hp hrest
      · have hob : observe l p = (none, l) := by simp [observe, hl, hc]
        simp only [runFilter, hob, List.filterMap_cons, id]
        exact runFilter_state_eq ps l hl hrest

/-- C1 (amended: all observed prices nonzero, since the code uses `0.0` as
its cold-start sentinel). The first observation records the price as
baseline and emits nothing; each later observation emits an event if and
only if the absolute move from the pre-observation state reaches
`MINIMUM_TICK_SIZE`; and each handler invocation pushes at most one payload
onto the queue. -/
theorem significance_filter_emit_iff (p₀ : ℚ) (ps : List ℚ)
    (h₀ : p₀ ≠ 0) (h : ∀ p ∈ ps, p ≠ 0) :
    observe 0 p₀ = (none, p₀) ∧
    EmitIff p₀ ps ∧
    ∀ (st : ListenerState) (e s : String) (v : ℚ),
      (on_binance_message st e s v).queue.length ≤ st.queue.length + 1 := by
  refine ⟨by simp [observe], emitIff_of_ne_zero ps p₀ h₀ h, ?_⟩
  intro st e s v
  simp only [on_binance_message]
  split
  · split
    · simp
    · split <;> simp
  · simp

/-- Witness for `significance_filter_emit_iff` at the concrete price
sequence 1, 2. -/
theorem significance_filter_emit_iff_witness :
    observe 0 (1 : ℚ) = (none, 1) ∧
    EmitIff 1 [2] ∧
    ∀ (st : ListenerState) (e s : String) (v : ℚ),
      (on_binance_message st e s v).queue.length ≤ st.queue.length + 1 :=
  significance_filter_emit_iff 1 [2] (by norm_num) (by norm_num)

/-- C1 counterexample to the claim as stated: on the price sequence 0, 1 the
second observation sees pre-observation state 0 and a move of magnitude 1,
which is at least the threshold, yet the code emits nothing (the state 0 is
taken for the cold-start sentinel again). -/
theorem significance_filter_emit_iff_cex :
    runFilter 0 [0, 1] = ([none, none], 1) ∧
    MINIMUM_TICK_SIZE ≤ |(1 : ℚ) - 0| ∧ ¬ EmitIff 0 [1] := by
  refine ⟨?_, by norm_num [MINIMUM_TICK_SIZE], ?_⟩
  · norm_num [runFilter, observe]
  · intro hE
    have h1 := hE.1
    rw [show observe (0 : ℚ) 1 = (none, 1) by simp [observe]] at h1
    norm_num [MINIMUM_TICK_SIZE] at h1

/-- C4 (amended: all observed prices nonzero, since an accepted price of
exactly 0.0 re-arms the cold-start branch). After any run of the filter the
stored price equals the last emitted price, or the first observed price if
nothing has been emitted; and a non-first, non-significant observation
leaves the state unchanged. -/
theorem filter_state_invariant (p₀ : ℚ) (ps : List ℚ)
    (h₀ : p₀ ≠ 0) (h : ∀ p ∈ ps, p ≠ 0) :
    (runFilter 0 (p₀ :: ps)).2 =
      ((runFilter 0 (p₀ :: ps)).1.filterMap id).getLastD p₀ ∧
    ∀ l p : ℚ, l ≠ 0 → (observe l p).1 = none → (observe l p).2 = l := by
  constructor
  · have hob : observe 0 p₀ = (none, p₀) := by simp [observe]
    simp only [runFilter, hob, List.filterMap_cons, id]
    exact runFilter_state_eq ps p₀ h₀ h
  · exact observe_none_of_eq

/-- Witness for `filter_state_invariant` at the concrete price sequence
1, 2. -/
theorem filter_state_invariant_witness :
    (runFilter 0 [1, 2]).2 = ((runFilter 0 [1, 2]).1.filterMap id).getLastD 1 ∧
    ∀ l p : ℚ, l ≠ 0 → (observe l p).1 = none → (observe l p).2 = l :=
  filter_state_invariant 1 [2] (by norm_num) (by norm_num)

/-- C4 counterexample to the claim as stated: on the price sequence
100, 0, 50, the third observation is neither the first nor significant (it
emits nothing), yet it changes the stored price from 0 to 50; the final
state 50 is neither the last emitted price (0) nor the first observed price
(100). -/
theorem filter_state_invariant_cex :
    runFilter 0 [100, 0, 50] = ([none, some 0, none], 50) ∧
    (50 : ℚ) ≠ 0 ∧ (50 : ℚ) ≠ 100 := by
  refine ⟨?_, by norm_num, by norm_num⟩
  norm_num [runFilter, observe, MINIMUM_TICK_SIZE]

/-- C10: whenever the stored last price is the sentinel 0, the next call
emits nothing and overwrites the baseline with the current price; and a
price of exactly 0 that passes the significance test is accepted with an
emission and stores 0, re-arming the cold-start behaviour for the
following call. -/
theorem zero_price_sentinel :
    (∀ p : ℚ, observe 0 p = (none, p)) ∧
    (∀ l : ℚ, l ≠ 0 → MINIMUM_TICK_SIZE ≤ |0 - l| → observe l 0 = (some 0, 0)) := by
  constructor
  · intro p; simp [observe]
  · intro l hl hge
    rw [zero_sub, abs_neg] at hge
    simp [observe, hl, abs_sub_comm, hge]

/-- Witness for `zero_price_sentinel` at baseline 1 and price 0. -/
theorem zero_price_sentinel_witness :
    observe (0 : ℚ) 5 = (none, 5) ∧ observe (1 : ℚ) 0 = (some 0, 0) :=
  ⟨zero_price_sentinel.1 5,
   zero_price_sentinel.2 1 (by norm_num) (by norm_num [MINIMUM_TICK_SIZE])⟩

/-- C2 (amended: the price field is inserted bare, not as a quoted JSON
string). On a significant trade, the byte string pushed onto the
HandoffChannel — and hence handed to the forwarding client unchanged — is
exactly the open brace, `"type":"S","p":`, the upstream price field
reproduced character for character with no surrounding quote characters,
and the closing brace. -/
theorem payload_unquoted (st : ListenerState) (s : String) (v : ℚ)
    (h0 : st.last_price ≠ 0) (hs : MINIMUM_TICK_SIZE ≤ |v - st.last_price|) :
    (on_binance_message st "trade" s v).queue =
      st.queue ++ ["\x7b\"type\":\"S\",\"p\":" ++ s ++ "\x7d"] := by
  simp [on_binance_message, h0, hs, payload]

/-- Witness for `payload_unquoted` with baseline 100 and price string
"100.5". -/
theorem payload_unquoted_witness :
    (on_binance_message ⟨100, []⟩ "trade" "100.5" (201/2)).queue =
      [] ++ ["\x7b\"type\":\"S\",\"p\":" ++ "100.5" ++ "\x7d"] :=
  payload_unquoted ⟨100, []⟩ "100.5" (201/2) (by norm_num)
    (by norm_num [MINIMUM_TICK_SIZE, le_abs])

/-- C2 counterexample to the claim as stated: for the upstream price string
"100.5" the emitted payload carries the price bare, so it differs from the
claimed form in which the price appears as a quoted JSON string. -/
theorem payload_unquoted_cex :
    payload "100.5" = "\x7b\"type\":\"S\",\"p\":100.5\x7d" ∧
    payload "100.5" ≠ "\x7b\"type\":\"S\",\"p\":\"100.5\"\x7d" := by
  constructor
  · rfl
  · decide

/-- Result of one completed call to `ThreadSafeQueue::pop`, as seen by the
caller: the call is still blocked in the condition wait, or it returned
false (the Closed signal), or it returned true with the moved-out front
element and the remaining queue. -/
inductive PopOutcome where
  | blocks
  | closed
  | value (s : String) (rest : List String)
  deriving Repr, DecidableEq

/-- Embedding of `ThreadSafeQueue::pop` (binance_listener.cpp lines 49-56).
The condition wait keeps the caller blocked while the queue is empty and
`g_running` is true; once past the wait the code first tests `!g_running`
and returns false regardless of the queue contents, and only otherwise
moves the front element out. `running` is the value of `g_running` when the
wait predicate is evaluated; `close` of the channel is modelled as that
flag being false. -/
def ThreadSafeQueue.pop (running : Bool) (q : List String) : PopOutcome :=
  if q.isEmpty ∧ running then PopOutcome.blocks
  else if !running then PopOutcome.closed
  else
    match q with
    | [] => PopOutcome.blocks
    | x :: xs => PopOutcome.value x xs

/-- C3 (amended: after the shutdown signal every pop returns the Closed
signal immediately, without blocking — including when items are still
queued: the queue is NOT drained first). -/
theorem pop_after_close (q : List String) :
    ThreadSafeQueue.pop false q = PopOutcome.closed := by
  simp [ThreadSafeQueue.pop]

/-- C3 counterexample to the claim as stated: with one item still queued
after close, pop returns the Closed signal instead of draining the item. -/
theorem pop_after_close_cex :
    ThreadSafeQueue.pop false ["a"] = PopOutcome.closed ∧
    ThreadSafeQueue.pop false ["a"] ≠ PopOutcome.value "a" [] := by
  constructor
  · decide
  · decide

/-- Operation in an interleaved history of the HandoffChannel: a completed
`push` by any producer (pushes are serialised by `m_mutex`) or a completed
`pop` by the consumer. -/
inductive QOp where
  | push (s : String)
  | pop
  deriving Repr, DecidableEq

/-- Sequential reduction of an interleaving of completed ThreadSafeQueue
operations on an open channel (`g_running` true throughout): a push appends
to the back, a pop removes the front. On an empty queue the consumer stays
blocked in the condition wait, so a pop completion cannot occur there; a
history containing one is rejected with none. Returns the remaining queue
and the popped items in completion order. -/
def runOps : List String → List String → List QOp → Option (List String × List String)
  | q, popped, [] => some (q, popped)
  | q, popped, QOp.push s :: ops => runOps (q ++ [s]) popped ops
  | q, popped, QOp.pop :: ops =>
      match q with
      | [] => none
      | x :: xs => runOps xs (popped ++ [x]) ops

/-- Items pushed in a history, in push order. -/
def pushesOf : List QOp → List String
  | [] => []
  | QOp.push s :: ops => s :: pushesOf ops
  | QOp.pop :: ops => pushesOf ops

lemma runOps_spec : ∀ (ops : List QOp) (q popped q2 popped2 : List String),
    runOps q popped ops = some (q2, popped2) →
    popped2 ++ q2 = popped ++ (q ++ pushesOf ops)
  | [], q, popped, q2, popped2, h => by
      simp [runOps] at h
      simp [h.1, h.2, pushesOf]
  | QOp.push s :: ops, q, popped, q2, popped2, h => by
      have ih := runOps_spec ops (q ++ [s]) popped q2 popped2 h
      simpa [pushesOf] using ih
  | QOp.pop :: ops, q, popped, q2, popped2, h => by
      match q with
      | [] => simp [runOps] at h
      | x :: xs =>
          have ih := runOps_spec ops xs (popped ++ [x]) q2 popped2 h
          simpa [pushesOf] using ih

/-- C7: for every interleaved history of completed push and pop operations
on the open channel, the popped items followed by the items still queued
are exactly the pushed items in push order — so the consumer receives a
prefix of the push sequence: FIFO order, no loss, no duplication, no
reordering. -/
theorem handoff_fifo (ops : List QOp) (q popped : List String)
    (h : runOps [] [] ops = some (q, popped)) :
    popped ++ q = pushesOf ops ∧ popped <+: pushesOf ops := by
  have hs := runOps_spec ops [] [] q popped h
  simp at hs
  exact ⟨hs, ⟨q, hs⟩⟩

/-- Witness for `handoff_fifo` on the history push a, push b, pop, pop,
push c. -/
theorem handoff_fifo_witness :
    ["a", "b"] ++ ["c"] =
      pushesOf [QOp.push "a", QOp.push "b", QOp.pop, QOp.pop, QOp.push "c"] ∧
    ["a", "b"] <+:
      pushesOf [QOp.push "a", QOp.push "b", QOp.pop, QOp.pop, QOp.push "c"] :=
  handoff_fifo [QOp.push "a", QOp.push "b", QOp.pop, QOp.pop, QOp.push "c"]
    ["c"] ["a", "b"] rfl

/-- Outcome-script model of `WebSocketClient::run` (binance_listener.cpp
lines 74-112): each list element is the outcome of one connect attempt
(resolve + connect + handshake) made while `g_running` is still true — true
means the attempt succeeds and the client reaches the Connected state,
false means it throws, is caught, and the loop sleeps
`RECONNECT_INTERVAL_MS` before the next attempt. Returns the number of
reconnect delays slept before the first successful attempt, or none when
every scripted attempt fails — the loop is then still retrying when the
script ends, since it stops only when `g_running` turns false. -/
def runUntilConnected : List Bool → Option Nat
  | [] => none
  | true :: _ => some 0
  | false :: rest => (runUntilConnected rest).map (· + 1)

/-- Durations, in milliseconds, of the reconnect sleeps incurred before the
first successful attempt of a script: each failed attempt contributes one
sleep of the fixed `RECONNECT_INTERVAL_MS`. -/
def delaysOf : List Bool → List Nat
  | [] => []
  | true :: _ => []
  | false :: rest => RECONNECT_INTERVAL_MS :: delaysOf rest

/-- C6: when the connection attempts fail exactly N times and then succeed,
run reaches the Connected state with exactly N reconnect delays, every one
of the fixed 3000 ms duration (no backoff growth); and as long as no
attempt has succeeded the loop keeps retrying — it never gives up while the
running flag stays true. -/
theorem reconnect_after_n_failures (N : Nat) :
    runUntilConnected (List.replicate N false ++ [true]) = some N ∧
    delaysOf (List.replicate N false ++ [true]) =
      List.replicate N RECONNECT_INTERVAL_MS ∧
    RECONNECT_INTERVAL_MS = 3000 ∧
    runUntilConnected (List.replicate N false) = none := by
  refine ⟨?_, ?_, rfl, ?_⟩
  · induction N with
    | zero => rfl
    | succ n ih => simp [List.replicate_succ, runUntilConnected, ih]
  · induction N with
    | zero => rfl
    | succ n ih => simp [List.replicate_succ, delaysOf, ih]
  · induction N with
    | zero => rfl
    | succ n ih => simp [List.replicate_succ, runUntilConnected, ih]

/-- Connection state of a WebSocketClient as observable by its send path:
whether the underlying stream is open, and the frames written to the wire
so far. -/
structure ClientState where
  is_open : Bool
  sent : List String
  deriving Repr, DecidableEq

/-- Embedding of `WebSocketClient::send` (binance_listener.cpp lines
114-122): the frame is written only when `m_ws.is_open()`; otherwise the
body does nothing, and any exception from the write is caught and
swallowed, so the function returns normally in every case — there is no
error channel in its type. -/
def WebSocketClient.send (st : ClientState) (message : String) : ClientState :=
  if st.is_open then { st with sent := st.sent ++ [message] } else st

/-- C8: send on a client that is not currently connected is a silent no-op:
the state is completely unchanged (in particular the payload is neither
written nor queued anywhere), and no error is surfaced — the embedded send
returns the state alone, with no error component. -/
theorem send_disconnected_noop (st : ClientState) (m : String)
    (h : st.is_open = false) :
    WebSocketClient.send st m = st := by
  simp [WebSocketClient.send, h]

/-- Witness for `send_disconnected_noop` on a disconnected client with an
empty wire log. -/
theorem send_disconnected_noop_witness :
    WebSocketClient.send ⟨false, []⟩ "x" = ⟨false, []⟩ :=
  send_disconnected_noop ⟨false, []⟩ "x" rfl

/-- Topic string, `BROADCAST_TOPIC = "trades"` in data_receiver_server.cpp. -/
def BROADCAST_TOPIC : String := "trades"

/-- Event observed by the single-threaded event loop of
data_receiver_server.cpp: a connection upgrade or close on the public
surface, an application message from a public client, a connection or
disconnection on the internal ingress surface, or a message arriving on an
ingress connection. -/
inductive HubEvent where
  | publicOpen
  | publicClose (id : Nat)
  | publicMessage (id : Nat) (msg : String)
  | internalOpen
  | internalClose
  | internalMessage (msg : String)
  deriving Repr, DecidableEq

/-- State of the broadcast hub: the `client_id_counter`, the set of client
ids currently subscribed to `BROADCAST_TOPIC`, the number of connections
concurrently accepted on the ingress surface, and the log of per-subscriber
deliveries (subscriber id, payload) in delivery order. -/
structure HubState where
  nextId : Nat
  subscribers : List Nat
  ingressConns : Nat
  deliveries : List (Nat × String)
  deriving Repr, DecidableEq

/-- Initial hub state: `client_id_counter = 0`, no subscribers, no ingress
connection, nothing delivered. -/
def HubState.init : HubState := ⟨0, [], 0, []⟩

/-- One step of the hub event loop, embedded from the handlers of
data_receiver_server.cpp. The uWebSockets accept, subscribe and publish
primitives are library code not under src/; they are modelled from the
spec: every incoming connection on a listening surface is accepted (the
handlers of src contain no rejection logic), `subscribe` registers the
connection under the topic, a close removes it, and `publish` delivers the
payload verbatim to every currently registered subscriber of the topic.
The handlers of src supply the application logic followed here: a public
upgrade assigns `client_id_counter++` (line 60) and the public open handler
subscribes the socket to the topic (line 69); public application messages
are ignored (lines 71-73); the internal open and close handlers only log
(lines 87-89 and 94-96); an internal message is republished to the topic
(line 92). -/
def hubStep (st : HubState) (ev : HubEvent) : HubState :=
  match ev with
  | HubEvent.publicOpen =>
      { st with nextId := st.nextId + 1, subscribers := st.subscribers ++ [st.nextId] }
  | HubEvent.publicClose i =>
      { st with subscribers := st.subscribers.filter (fun j => j != i) }
  | HubEvent.publicMessage _ _ => st
  | HubEvent.internalOpen => { st with ingressConns := st.ingressConns + 1 }
  | HubEvent.internalClose => { st with ingressConns := st.ingressConns - 1 }
  | HubEvent.internalMessage m =>
      { st with deliveries := st.deliveries ++ st.subscribers.map (fun i => (i, m)) }

/-- Run of the hub event loop from process start. -/
def hubRun (evs : List HubEvent) : HubState :=
  evs.foldl hubStep HubState.init

/-- Invariant tying subscriber ids to the id counter: every registered
subscriber received its id from a past value of the counter. -/
def HubInv (st : HubState) : Prop :=
  ∀ i ∈ st.subscribers, i < st.nextId

lemma hubStep_inv (st : HubState) (ev : HubEvent) (h : HubInv st) :
    HubInv (hubStep st ev) := by
  cases ev with
  | publicOpen =>
      intro i hi
      simp [hubStep] at hi
      rcases hi with hi | hi
      · exact Nat.lt_succ_of_lt (h i hi)
      · simp [hubStep, hi]
  | publicClose j =>
      intro i hi
      simp [hubStep, List.mem_filter] at hi
      exact h i hi.1
  | publicMessage j m => exact h
  | internalOpen => exact h
  | internalClose => exact h
  | internalMessage m => exact h

lemma hubRun_inv (evs : List HubEvent) : HubInv (hubRun evs) := by
  suffices hgen : ∀ (l : List HubEvent) (st : HubState), HubInv st →
      HubInv (l.foldl hubStep st) by
    exact hgen evs HubState.init (by intro i hi; simp [HubState.init] at hi)
  intro l
  induction l with
  | nil => intro st h; exact h
  | cons e l ih => intro st h; exact ih (hubStep st e) (hubStep_inv st e h)

/-- C5: a message published on the ingress connection is delivered,
byte-for-byte identical, to every subscriber registered under the trades
topic at the moment of publish, and to nobody else: a client not registered
at that moment (disconnected before the publish) gains no delivery, a
client whose id is only assigned later (connected after the publish) gains
no delivery, and no other event ever adds deliveries — so the message is
never replayed. -/
theorem hub_fanout (st : HubState) (m : String) (hinv : HubInv st) :
    (hubStep st (HubEvent.internalMessage m)).deliveries =
      st.deliveries ++ st.subscribers.map (fun i => (i, m)) ∧
    (∀ i ∈ st.subscribers,
      (i, m) ∈ (hubStep st (HubEvent.internalMessage m)).deliveries) ∧
    (∀ i p, i ∉ st.subscribers →
      (i, p) ∈ (hubStep st (HubEvent.internalMessage m)).deliveries →
      (i, p) ∈ st.deliveries) ∧
    (∀ i p, st.nextId ≤ i →
      (i, p) ∈ (hubStep st (HubEvent.internalMessage m)).deliveries →
      (i, p) ∈ st.deliveries) ∧
    (∀ ev : HubEvent, (∀ m2, ev ≠ HubEvent.internalMessage m2) →
      (hubStep st ev).deliveries = st.deliveries) := by
  refine ⟨rfl, ?_, ?_, ?_, ?_⟩
  · intro i hi
    simp only [hubStep, List.mem_append, List.mem_map]
    exact Or.inr ⟨i, hi, rfl⟩
  · intro i p hni hmem
    simp only [hubStep, List.mem_append, List.mem_map] at hmem
    rcases hmem with hmem | ⟨j, hj, hjq⟩
    · exact hmem
    · cases hjq
      exact absurd hj hni
  · intro i p hle hmem
    simp only [hubStep, List.mem_append, List.mem_map] at hmem
    rcases hmem with hmem | ⟨j, hj, hjq⟩
    · exact hmem
    · cases hjq
      exact absurd (hinv i hj) (Nat.not_lt.mpr hle)
  · intro ev hev
    cases ev with
    | publicOpen => rfl
    | publicClose j => rfl
    | publicMessage j m2 => rfl
    | internalOpen => rfl
    | internalClose => rfl
    | internalMessage m2 => exact absurd rfl (hev m2)

/-- Witness for `hub_fanout` in the state with subscribers 0, 1, 2 under
the topic and the payload "x". -/
theorem hub_fanout_witness :
    (hubStep ⟨3, [0, 1, 2], 1, []⟩ (HubEvent.internalMessage "x")).deliveries =
      [] ++ [0, 1, 2].map (fun i => (i, "x")) ∧
    (∀ i ∈ [0, 1, 2],
      (i, "x") ∈ (hubStep ⟨3, [0, 1, 2], 1, []⟩ (HubEvent.internalMessage "x")).deliveries) ∧
    (∀ i p, i ∉ [0, 1, 2] →
      (i, p) ∈ (hubStep ⟨3, [0, 1, 2], 1, []⟩ (HubEvent.internalMessage "x")).deliveries →
      (i, p) ∈ ([] : List (Nat × String))) ∧
    (∀ i p, 3 ≤ i →
      (i, p) ∈ (hubStep ⟨3, [0, 1, 2], 1, []⟩ (HubEvent.internalMessage "x")).deliveries →
      (i, p) ∈ ([] : List (Nat × String))) ∧
    (∀ ev : HubEvent, (∀ m2, ev ≠ HubEvent.internalMessage m2) →
      (hubStep ⟨3, [0, 1, 2], 1, []⟩ ev).deliveries = []) :=
  hub_fanout ⟨3, [0, 1, 2], 1, []⟩ "x"
    (by intro i hi; simp at hi; show i < 3; omega)

/-- C9 (amended: the ingress surface places no limit on concurrent
publisher connections — the internal handlers contain no rejection or
exclusivity logic, so exclusivity of the publisher is a deployment
convention rather than an enforced invariant — and a message arriving on
any ingress connection is published to the trades topic). -/
theorem ingress_no_single_publisher_limit (n : Nat) :
    (hubRun (List.replicate n HubEvent.internalOpen)).ingressConns = n ∧
    ∀ (st : HubState) (m : String),
      (hubStep st (HubEvent.internalMessage m)).deliveries =
        st.deliveries ++ st.subscribers.map (fun i => (i, m)) := by
  constructor
  · suffices h : ∀ (k : Nat) (st : HubState),
        ((List.replicate k HubEvent.internalOpen).foldl hubStep st).ingressConns =
          st.ingressConns + k by
      simpa [hubRun, HubState.init] using h n HubState.init
    intro k
    induction k with
    | zero => intro st; simp
    | succ j ih =>
        intro st
        simp only [List.replicate_succ, List.foldl_cons]
        rw [ih]
        simp [hubStep]
        omega
  · intro st m
    rfl

/-- C9 counterexample to the claim as stated: the state reached after two
connections on the ingress surface has two concurrently accepted publisher
connections, and a message published while both are connected is still
delivered to the registered subscriber. -/
theorem ingress_two_publishers_cex :
    (hubRun [HubEvent.internalOpen, HubEvent.internalOpen]).ingressConns = 2 ∧
    (hubRun [HubEvent.publicOpen, HubEvent.internalOpen, HubEvent.internalOpen,
        HubEvent.internalMessage "x"]).deliveries = [(0, "x")] := by
  constructor
  · rfl
  · rfl
